import Mathlib

/-!
Shallow embedding of `signingscript/task.py` (catlee/scriptworker-scripts).

The Python module resolves signing formats to signing operations through a
regex-keyed registry, authorizes a task's certificate type from its scopes,
orders signing formats, builds the per-file work list, and drives the
pack/unpack archive lifecycle around the per-format signing loop.
-/

namespace Signingscript

/-- Errors raised by the embedded functions.  `taskVerification` models
`scriptworker.exceptions.TaskVerificationError` (whose payload is a string or,
for `build_filelist_dict`, a list of messages); `valueError` models Python's
`ValueError`; `typeError` models the `TypeError` Python raises when a path
operation receives a list. -/
inductive PyError where
  | taskVerification (message : String) : PyError
  | taskVerificationList (messages : List String) : PyError
  | valueError (message : String) : PyError
  | typeError : PyError
deriving DecidableEq, Repr

/-- The signing functions imported from `signingscript.sign`.  They are
external collaborators ("abstract signing operations" in the spec); the
registry only needs their identities. -/
inductive SigningFunction where
  | sign_gpg
  | sign_jar
  | sign_macapp
  | sign_widevine
  | sign_file
  | sign_mar384_with_autograph_hash
  | sign_gpg_with_autograph
  | sign_omnija
  | sign_langpack
  | sign_authenticode_zip
deriving DecidableEq, Repr

/-- Python's `str.startswith`: the prefix test, on character data (kept
structural so closed instances evaluate). -/
def pyStartsWith (s pre : String) : Bool :=
  pre.data.isPrefixOf s.data

/-- Python's `str.endswith`: the suffix test, on character data. -/
def pyEndsWith (s suf : String) : Bool :=
  suf.data.isSuffixOf s.data

/-! ### A small regex model covering the patterns used as registry keys.

`re.match(pattern, s)` anchors the pattern at the start of `s` and succeeds
iff the pattern matches some prefix of `s`.  The registry keys only use
literal characters, `.` (any character except newline), `\w` (word
character; here the ASCII subset), `x+` on single-character atoms, and an
optional group `(...)?`. -/

/-- A single-character regex atom: a literal character, `.`, or `\w`. -/
inductive RAtom where
  | chr (c : Char) : RAtom
  | any : RAtom
  | word : RAtom
deriving DecidableEq, Repr

/-- Regexes built from atoms, concatenation, option (`?`) and plus (`+`)
restricted to single-character atoms (the only use in the registry). -/
inductive Regex where
  | eps : Regex
  | atom (a : RAtom) : Regex
  | seq (r1 r2 : Regex) : Regex
  | opt (r : Regex) : Regex
  | plusA (a : RAtom) : Regex
deriving DecidableEq, Repr

/-- Whether an atom matches one character.  `.` matches anything but a
newline (no `re.DOTALL`); `\w` is modelled by its ASCII subset
(alphanumeric or underscore), which covers every key in the registry. -/
def atomMatches : RAtom → Char → Bool
  | .chr c, x => x = c
  | .any, x => x ≠ '\n'
  | .word, x => x.isAlphanum || x = '_'

/-- All suffixes reachable by consuming zero or more characters matching
atom `a` from the front of the input. -/
def starSuffixes (a : RAtom) : List Char → List (List Char)
  | [] => [[]]
  | x :: rest =>
    (x :: rest) :: (if atomMatches a x then starSuffixes a rest else [])

/-- All suffixes remaining after the regex matches some prefix of the
input (full nondeterministic matching, hence equivalent to Python's
backtracking matcher on this fragment). -/
def matchSuffixes : Regex → List Char → List (List Char)
  | .eps, s => [s]
  | .atom _, [] => []
  | .atom a, x :: rest => if atomMatches a x then [rest] else []
  | .seq r1 r2, s => (matchSuffixes r1 s).flatMap (matchSuffixes r2)
  | .opt r, s => matchSuffixes r s ++ [s]
  | .plusA _, [] => []
  | .plusA a, x :: rest => if atomMatches a x then starSuffixes a rest else []

/-- The regex denoted by a string with no metacharacters. -/
def litRegex (s : String) : Regex :=
  s.data.foldr (fun c r => .seq (.atom (.chr c)) r) .eps

/-- The regex denoted by a registry key.  Three keys use metacharacters
(`autograph_apk_.+`, `autograph_hash_only_mar384(:\w+)?`,
`autograph_stage_mar384(:\w+)?`); every other key is a literal. -/
def patternOf (key : String) : Regex :=
  if key = "autograph_apk_.+" then
    .seq (litRegex "autograph_apk_") (.plusA .any)
  else if key = "autograph_hash_only_mar384(:\\w+)?" then
    .seq (litRegex "autograph_hash_only_mar384")
      (.opt (.seq (.atom (.chr ':')) (.plusA .word)))
  else if key = "autograph_stage_mar384(:\\w+)?" then
    .seq (litRegex "autograph_stage_mar384")
      (.opt (.seq (.atom (.chr ':')) (.plusA .word)))
  else litRegex key

/-- `re.match(key, format) is not None`: the key's pattern, anchored at the
start, matches some prefix of `format`. -/
def reMatches (key format : String) : Bool :=
  !(matchSuffixes (patternOf key) format.data).isEmpty

/-- `FORMAT_TO_SIGNING_FUNCTION`, a `frozendict` in insertion order. -/
def FORMAT_TO_SIGNING_FUNCTION : List (String × SigningFunction) :=
  [ ("autograph_focus", .sign_jar),
    ("autograph_apk_.+", .sign_jar),
    ("autograph_hash_only_mar384(:\\w+)?", .sign_mar384_with_autograph_hash),
    ("autograph_stage_mar384(:\\w+)?", .sign_mar384_with_autograph_hash),
    ("gpg", .sign_gpg),
    ("autograph_gpg", .sign_gpg_with_autograph),
    ("jar", .sign_jar),
    ("focus-jar", .sign_jar),
    ("macapp", .sign_macapp),
    ("widevine", .sign_widevine),
    ("autograph_widevine", .sign_widevine),
    ("autograph_omnija", .sign_omnija),
    ("autograph_langpack", .sign_langpack),
    ("autograph_authenticode", .sign_authenticode_zip),
    ("autograph_authenticode_stub", .sign_authenticode_zip),
    ("default", .sign_file) ]

/-- `_get_signing_function_from_format`: collect the registry items whose
key, read as a regex anchored at the start, matches the requested format.
If exactly one item matches, return its function
(`get_single_item_from_sequence` returns it; with zero or several matches it
raises `ValueError`, caught below).  On the fallback path, look the format
up as an exact dict key, defaulting to the `"default"` entry
(`sign_file`). -/
def _get_signing_function_from_format (format : String) : SigningFunction :=
  match FORMAT_TO_SIGNING_FUNCTION.filter (fun item => reMatches item.1 format) with
  | [item] => item.2
  | _ =>
    match FORMAT_TO_SIGNING_FUNCTION.find? (fun item => item.1 = format) with
    | some item => item.2
    | none => SigningFunction.sign_file

example : _get_signing_function_from_format "gpg" = .sign_gpg := by decide
example : _get_signing_function_from_format "autograph_apk_focus" = .sign_jar := by decide
example : _get_signing_function_from_format "autograph_hash_only_mar384:firefox" = .sign_mar384_with_autograph_hash := by decide
example : _get_signing_function_from_format "autograph_authenticode_stub" = .sign_authenticode_zip := by decide
example : _get_signing_function_from_format "autograph_authenticode_stubble" = .sign_file := by decide
example : _get_signing_function_from_format "unknown" = .sign_file := by decide
example : (FORMAT_TO_SIGNING_FUNCTION.filter (fun item => reMatches item.1 "autograph_authenticode_stub")).length = 2 := by decide

/-! ### Scope authorizer (`task_cert_type` and helpers) -/

/-- The slice of a task used by `task_cert_type`: its scope list. -/
structure SigningTask where
  scopes : List String
deriving DecidableEq, Repr

/-- The slice of the signing context used by `task_cert_type`: the
(possibly absent) task and `context.config["taskcluster_scope_prefixes"]`. -/
structure ScopeContext where
  task : Option SigningTask
  taskcluster_scope_prefixes : List String
deriving DecidableEq, Repr

/-- `_get_scope_prefixes`: normalize each configured prefix to end with `:`
and append `{sub_namespace}:`. -/
def _get_scope_prefixes (context : ScopeContext) (sub_namespace : String) : List String :=
  (context.taskcluster_scope_prefixes.map
      (fun pfx => if pyEndsWith pfx ":" then pfx else pfx ++ ":")).map
    (fun pfx => pfx ++ sub_namespace ++ ":")

/-- `_get_cert_prefixes`. -/
def _get_cert_prefixes (context : ScopeContext) : List String :=
  _get_scope_prefixes context "cert"

/-- The list comprehension in `_extract_scopes_from_unique_prefix`:
`[scope for scope in scopes for prefix in prefixes if scope.startswith(prefix)]`.
A scope is emitted once per prefix it starts with. -/
def _filtered_scopes (scopes prefixes : List String) : List String :=
  scopes.flatMap (fun scope =>
    prefixes.filterMap (fun pfx =>
      if pyStartsWith scope pfx then some scope else none))

/-- `_check_scopes_exist_and_all_have_the_same_prefix`: the `for/else`
succeeds (breaks) iff some prefix is a prefix of every scope. -/
def _check_scopes_exist_and_all_have_the_same_prefix
    (scopes prefixes : List String) : Except PyError Unit :=
  if prefixes.any (fun pfx => scopes.all (fun scope => pyStartsWith scope pfx)) then
    .ok ()
  else
    .error (.taskVerification "Scopes must exist and all have the same prefix")

/-- `_extract_scopes_from_unique_prefix`. -/
def _extract_scopes_from_unique_prefix (scopes prefixes : List String) :
    Except PyError (List String) :=
  let filtered := _filtered_scopes scopes prefixes
  match _check_scopes_exist_and_all_have_the_same_prefix filtered prefixes with
  | .error e => .error e
  | .ok _ => .ok filtered

/-- `scriptworker.utils.get_single_item_from_sequence` (external library
helper): return the unique element satisfying `condition`, raising the
given error message otherwise. -/
def get_single_item_from_sequence {α : Type} (sequence : List α) (condition : α → Bool)
    (no_item_error_message too_many_item_error_message : String) : Except PyError α :=
  match sequence.filter condition with
  | [item] => .ok item
  | [] => .error (.taskVerification no_item_error_message)
  | _ => .error (.taskVerification too_many_item_error_message)

/-- `task_cert_type`: reject a missing task or empty scope list, filter the
scopes by the constructed `cert` prefixes, check they share a prefix, and
return the single remaining scope. -/
def task_cert_type (context : ScopeContext) : Except PyError String :=
  match context.task with
  | none => .error (.taskVerification "No scopes found")
  | some task =>
    if task.scopes.isEmpty then .error (.taskVerification "No scopes found")
    else
      let prefixes := _get_cert_prefixes context
      match _extract_scopes_from_unique_prefix task.scopes prefixes with
      | .error e => .error e
      | .ok scopes =>
        get_single_item_from_sequence scopes (fun _ => true)
          "No scope starting with any of these prefixes found"
          "More than one scope found"

example :
    task_cert_type ⟨some ⟨["project:releng:signing:cert:dep-signing"]⟩, ["project:releng:signing"]⟩ =
      .ok "project:releng:signing:cert:dep-signing" := by rfl
example :
    task_cert_type ⟨some ⟨["proj:cert:x:cert:dep"]⟩, ["proj", "proj:cert:x"]⟩ =
      .error (.taskVerification "More than one scope found") := by rfl

/-! ### Format orderer (`_sort_formats`) -/

/-- The fixed priority tuple iterated by `_sort_formats`. -/
def SORT_PRIORITY : List String :=
  ["widevine", "autograph_widevine", "autograph_omnija", "macapp", "gpg", "autograph_gpg"]

/-- One step of `_sort_formats`: `if fmt in formats: formats.remove(fmt);
formats.append(fmt)` — `remove` deletes the first occurrence. -/
def moveToEnd (formats : List String) (fmt : String) : List String :=
  if fmt ∈ formats then formats.erase fmt ++ [fmt] else formats

/-- `_sort_formats`: move each priority format that is present to the end,
in the priority tuple's order. -/
def _sort_formats (formats : List String) : List String :=
  SORT_PRIORITY.foldl moveToEnd formats

example : _sort_formats ["gpg", "widevine", "jar"] = ["jar", "widevine", "gpg"] := by decide
example :
    _sort_formats (_sort_formats ["gpg", "widevine", "gpg", "widevine"]) ≠
      _sort_formats ["gpg", "widevine", "gpg", "widevine"] := by decide
example : _sort_formats ["jar", "focus-jar"] ≠ _sort_formats ["focus-jar", "jar"] := by decide

/-! ### Upstream artifact resolver (`build_filelist_dict`) -/

/-- One entry of `task["payload"]["upstreamArtifacts"]`. -/
structure UpstreamArtifact where
  taskId : String
  paths : List String
  formats : List String
deriving DecidableEq, Repr

/-- The slice of the signing context used by `build_filelist_dict`:
`config["work_dir"]`, the payload's artifact groups, and the file-existence
view of the filesystem (`os.path.exists`). -/
structure FilelistContext where
  work_dir : String
  upstreamArtifacts : List UpstreamArtifact
  path_exists : String → Bool

/-- The value stored per relative path: `{"full_path": ..., "formats": ...}`. -/
structure FileEntry where
  full_path : String
  formats : List String
deriving DecidableEq, Repr

/-- `os.path.join(work_dir, "cot", taskId, path)` for relative components. -/
def cotFullPath (context : FilelistContext) (a : UpstreamArtifact) (path : String) : String :=
  context.work_dir ++ "/cot/" ++ a.taskId ++ "/" ++ path

/-- Python dict assignment `d[k] = v`: replace in place when the key is
present, append otherwise (insertion order preserved). -/
def dictInsert (d : List (String × FileEntry)) (k : String) (v : FileEntry) :
    List (String × FileEntry) :=
  if d.any (fun kv => kv.1 = k) then
    d.map (fun kv => if kv.1 = k then (k, v) else kv)
  else d ++ [(k, v)]

/-- Python dict read `d.get(k)`. -/
def dictLookup (d : List (String × FileEntry)) (k : String) : Option FileEntry :=
  match d with
  | [] => none
  | kv :: rest => if kv.1 = k then some kv.2 else dictLookup rest k

/-- The formats list of one group as observed in the dict
`build_filelist_dict` returns.  The source stores a reference to
`artifact_dict["formats"]` per path, and `_sort_formats` mutates that
shared list in place and returns the same object — one sorting pass per
path of the group — so by return time every entry of the group aliases the
`a.paths.length`-fold-sorted list. -/
def groupSortedFormats (a : UpstreamArtifact) : List String :=
  _sort_formats^[a.paths.length] a.formats

/-- The body of the inner loop of `build_filelist_dict` for one `path`:
record a message when the full path does not exist, and set
`filelist_dict[path]`.  The entry's formats are the group's final
(aliased, compounded) list — see `groupSortedFormats`. -/
def processPath (context : FilelistContext) (a : UpstreamArtifact)
    (acc : List (String × FileEntry) × List String) (path : String) :
    List (String × FileEntry) × List String :=
  let full_path := cotFullPath context a path
  let messages :=
    if context.path_exists full_path then acc.2
    else acc.2 ++ [full_path ++ " doesn\x27t exist!"]
  (dictInsert acc.1 path ⟨full_path, groupSortedFormats a⟩, messages)

/-- The outer-loop body of `build_filelist_dict` for one artifact group. -/
def processArtifact (context : FilelistContext)
    (acc : List (String × FileEntry) × List String) (a : UpstreamArtifact) :
    List (String × FileEntry) × List String :=
  a.paths.foldl (processPath context a) acc

/-- `build_filelist_dict`: walk every (group, path) pair, accumulate the
dictionary and the missing-path messages, and raise a single
`TaskVerificationError` carrying all messages if any accumulated. -/
def build_filelist_dict (context : FilelistContext) :
    Except PyError (List (String × FileEntry)) :=
  let acc := context.upstreamArtifacts.foldl (processArtifact context) ([], [])
  if acc.2.isEmpty then .ok acc.1 else .error (.taskVerificationList acc.2)

example :
    build_filelist_dict
        ⟨"/w", [⟨"T1", ["a", "b", "c"], ["gpg"]⟩], fun p => p = "/w/cot/T1/b"⟩ =
      .error (.taskVerificationList
        ["/w/cot/T1/a doesn\x27t exist!", "/w/cot/T1/c doesn\x27t exist!"]) := by rfl

example :
    build_filelist_dict
        ⟨"/w", [⟨"T1", ["a"], ["gpg", "jar"]⟩], fun _ => true⟩ =
      .ok [("a", ⟨"/w/cot/T1/a", ["jar", "gpg"]⟩)] := by rfl

example :
    build_filelist_dict
        ⟨"/w", [⟨"T1", ["p", "q"], ["gpg", "widevine", "gpg", "widevine"]⟩],
          fun _ => true⟩ =
      .ok [("p", ⟨"/w/cot/T1/p", ["widevine", "gpg", "widevine", "gpg"]⟩),
           ("q", ⟨"/w/cot/T1/q", ["widevine", "gpg", "widevine", "gpg"]⟩)] := by rfl

/-! ### Archive lifecycle (`make_archive` and `sign`) -/

/-- A Python value flowing through `sign`'s `output` variable: a single
path string, or a tuple/list of paths returned by a signing function. -/
inductive PyLoc where
  | single (p : String) : PyLoc
  | multiple (ps : List String) : PyLoc
deriving DecidableEq, Repr

/-- The external collaborators `sign` calls into: `os.path.isdir`,
`signingscript.sign.extract_archive` and `_get_files`, and the signing
functions themselves.  `sign`'s guarantees below hold for every backend. -/
structure SignBackend where
  isdir : String → Bool
  extract_archive : String → String
  getFiles : String → List String
  signOp : SigningFunction → String → String → PyLoc

/-- Modelled from the spec: `signingscript.sign._create_zipfile` (not under
`src/`) packs `files` from `dirname` into a zip archive written at `dest` and
returns it ("perform one final repack using the original extension and
original output path"). -/
def _create_zipfile (dest : String) (_files : List String) (_dirname : String) : String :=
  dest

/-- Modelled from the spec: `signingscript.sign._create_tarfile` (not under
`src/`) packs `files` from `dirname` into a tar archive with the given
compression written at `dest` and returns it. -/
def _create_tarfile (dest : String) (_files : List String) (_compression : String)
    (_dirname : String) : String :=
  dest

/-- Python's string rendering of `sign`'s `archive_ext` variable, which is
either a string or `None`. -/
def extReprString : Option String → String
  | none => "None"
  | some s => s

/-- Python's `str.split(sep)` for a one-character separator, on character
data (kept structural so closed instances evaluate). -/
def splitCharsOn (sep : Char) : List Char → List (List Char)
  | [] => [[]]
  | c :: rest =>
    match splitCharsOn sep rest with
    | [] => if c = sep then [[], []] else [[c]]
    | g :: gs => if c = sep then [] :: g :: gs else (c :: g) :: gs

/-- `archive_ext.split(".")[-1]`: the compression suffix of a tar extension. -/
def tarCompression (archive_ext : String) : String :=
  String.mk ((splitCharsOn '.' archive_ext.data).getLastD [])

/-- `make_archive`: dispatch on the archive extension, raising `ValueError`
for any extension outside `.zip`/`.tar.bz2`/`.tar.gz`.  The compression for
tarballs is `archive_ext.split(".")[-1]`. -/
def make_archive (backend : SignBackend) (dirname : String)
    (archive_ext : Option String) (output : String) : Except PyError String :=
  let files := backend.getFiles dirname
  if archive_ext = some ".zip" then
    .ok (_create_zipfile output files dirname)
  else if archive_ext = some ".tar.bz2" ∨ archive_ext = some ".tar.gz" then
    let compression := tarCompression (extReprString archive_ext)
    .ok (_create_tarfile output files compression dirname)
  else
    .error (.valueError ("Unsupported archive format " ++ extReprString archive_ext))

/-- The set `archive_formats` in `sign`: the archive-aware formats. -/
def archive_formats : List String :=
  ["autograph_widevine", "autograph_omnija", "autograph_authenticode"]

/-- `sign`'s computation of `archive_ext` from the input path. -/
def archiveExtOf (path : String) : Option String :=
  if pyEndsWith path ".zip" then some ".zip"
  else if pyEndsWith path ".tar.gz" then some ".tar.gz"
  else if pyEndsWith path ".tar.bz2" then some ".tar.bz2"
  else none

/-- Observable archive transitions of one run of `sign`: an extraction, or
a repack of `dirname` into `dest` with the given extension (`final := true`
for the post-loop repack). -/
inductive ArchiveEvent where
  | extracted (src : String) : ArchiveEvent
  | repacked (dirname : String) (archive_ext : Option String) (dest : String)
      (final : Bool) : ArchiveEvent
deriving DecidableEq, Repr

/-- The loop state of `sign`: the `output` variable, the
`recreate_archive` flag, and the archive events so far. -/
structure SignState where
  output : PyLoc
  recreate_archive : Bool
  events : List ArchiveEvent
deriving DecidableEq, Repr

/-- One iteration of `sign`'s format loop.  Archive-aware formats extract
the archive when `output` is not a directory and set `recreate_archive`;
other formats repack a directory to the original `path` with the original
extension and clear the flag; then the resolved signing function runs on
the current location (the common trailing call is written once per branch).
`os.path.isdir` on a tuple/list raises `TypeError`. -/
def signStep (backend : SignBackend) (archive_ext : Option String) (path : String)
    (st : SignState) (fmt : String) : Except PyError SignState :=
  match st.output with
  | .multiple _ => .error .typeError
  | .single output =>
    if fmt ∈ archive_formats then
      if !backend.isdir output then
        .ok ⟨backend.signOp (_get_signing_function_from_format fmt)
              (backend.extract_archive output) fmt, true,
             st.events ++ [ArchiveEvent.extracted output]⟩
      else
        .ok ⟨backend.signOp (_get_signing_function_from_format fmt) output fmt, true,
             st.events⟩
    else
      if backend.isdir output then
        match make_archive backend output archive_ext path with
        | .error e => .error e
        | .ok output' =>
          .ok ⟨backend.signOp (_get_signing_function_from_format fmt) output' fmt, false,
               st.events ++ [ArchiveEvent.repacked output archive_ext path false]⟩
      else
        .ok ⟨backend.signOp (_get_signing_function_from_format fmt) output fmt, false,
             st.events⟩

/-- `sign`'s format loop. -/
def signRun (backend : SignBackend) (archive_ext : Option String) (path : String) :
    List String → SignState → Except PyError SignState
  | [], st => .ok st
  | fmt :: rest, st =>
    match signStep backend archive_ext path st fmt with
    | .error e => .error e
    | .ok st' => signRun backend archive_ext path rest st'

/-- `sign`: run the loop from the input path, repack once more if a repack
is still owed, and normalize the result to a list of locations. -/
def sign (backend : SignBackend) (path : String) (signing_formats : List String) :
    Except PyError (List String × List ArchiveEvent) :=
  match signRun backend (archiveExtOf path) path signing_formats
      ⟨.single path, false, []⟩ with
  | .error e => .error e
  | .ok st =>
    if st.recreate_archive then
      match st.output with
      | .multiple _ => .error .typeError
      | .single output =>
        match make_archive backend output (archiveExtOf path) path with
        | .error e => .error e
        | .ok output' =>
          .ok ([output'],
            st.events ++ [ArchiveEvent.repacked output (archiveExtOf path) path true])
    else
      match st.output with
      | .single output => .ok ([output], st.events)
      | .multiple ps => .ok (ps, st.events)

/-- A concrete backend used by concrete runs: extraction lands in
`<src>-unpacked`, exactly the unpacked directories are directories, and
every signing function is the identity on its input location. -/
def plainBackend : SignBackend where
  isdir p := pyEndsWith p "-unpacked"
  extract_archive p := p ++ "-unpacked"
  getFiles _ := ["f"]
  signOp _ o _ := .single o

example :
    sign plainBackend "app.zip" ["autograph_widevine", "gpg"] =
      .ok (["app.zip"],
        [.extracted "app.zip",
         .repacked "app.zip-unpacked" (some ".zip") "app.zip" false]) := by rfl

example :
    sign plainBackend "app.tar.gz" ["autograph_omnija"] =
      .ok (["app.tar.gz"],
        [.extracted "app.tar.gz",
         .repacked "app.tar.gz-unpacked" (some ".tar.gz") "app.tar.gz" true]) := by rfl

/-- The missing-path messages contributed by one artifact group of
`build_filelist_dict`, in path order. -/
def artifactMessages (context : FilelistContext) (a : UpstreamArtifact) : List String :=
  a.paths.filterMap (fun path =>
    if context.path_exists (cotFullPath context a path) then none
    else some (cotFullPath context a path ++ " doesn\x27t exist!"))

/-- All missing-path messages accumulated by one run of
`build_filelist_dict`, in traversal order. -/
def allMessages (context : FilelistContext) : List String :=
  context.upstreamArtifacts.flatMap (artifactMessages context)

/-- The last artifact group declaring `path`: the one whose entry survives
the dict overwrites of `build_filelist_dict`. -/
def lastArtifactFor (arts : List UpstreamArtifact) (path : String) : Option UpstreamArtifact :=
  arts.foldl (fun r a => if path ∈ a.paths then some a else r) none

/-! ## Theorems -/

/-- Every registry key, read as a regex, matches itself. -/
theorem registry_key_self_matches :
    ∀ item ∈ FORMAT_TO_SIGNING_FUNCTION, reMatches item.1 item.1 = true := by
  decide

/-- C1: Format Resolver precedence.  For every requested format string: if
exactly one registry key (as an anchored pattern) matches, the resolver
returns that key's operation; if several match, it returns the operation of
the exact literal registry key equal to the requested string when one
exists; otherwise (several matches with no exact key, or no match at all)
it returns the `"default"` operation, `sign_file`. -/
theorem C1_format_resolver_precedence (format : String) :
    (∀ k f,
      FORMAT_TO_SIGNING_FUNCTION.filter (fun item => reMatches item.1 format) = [(k, f)] →
      _get_signing_function_from_format format = f) ∧
    (2 ≤ (FORMAT_TO_SIGNING_FUNCTION.filter (fun item => reMatches item.1 format)).length →
      ∀ k f, FORMAT_TO_SIGNING_FUNCTION.find? (fun item => item.1 = format) = some (k, f) →
        _get_signing_function_from_format format = f) ∧
    ((2 ≤ (FORMAT_TO_SIGNING_FUNCTION.filter (fun item => reMatches item.1 format)).length ∧
        FORMAT_TO_SIGNING_FUNCTION.find? (fun item => item.1 = format) = none) ∨
      FORMAT_TO_SIGNING_FUNCTION.filter (fun item => reMatches item.1 format) = [] →
      _get_signing_function_from_format format = SigningFunction.sign_file) := by
  refine ⟨?_, ?_, ?_⟩
  · intro k f hM
    unfold _get_signing_function_from_format
    rw [hM]
  · intro hlen k f hfind
    unfold _get_signing_function_from_format
    cases hM : FORMAT_TO_SIGNING_FUNCTION.filter (fun item => reMatches item.1 format) with
    | nil => rw [hM] at hlen; simp at hlen
    | cons a tail =>
      cases tail with
      | nil => rw [hM] at hlen; simp at hlen
      | cons b tl => rw [hfind]
  · intro h
    unfold _get_signing_function_from_format
    rcases h with ⟨hlen, hnone⟩ | hnil
    · cases hM : FORMAT_TO_SIGNING_FUNCTION.filter (fun item => reMatches item.1 format) with
      | nil => rw [hM] at hlen; simp at hlen
      | cons a tail =>
        cases tail with
        | nil => rw [hM] at hlen; simp at hlen
        | cons b tl => rw [hnone]
    · rw [hnil]
      cases hfind : FORMAT_TO_SIGNING_FUNCTION.find? (fun item => item.1 = format) with
      | none => rfl
      | some item =>
        exfalso
        have hkey : item.1 = format := by
          have := List.find?_some hfind
          simpa using this
        have hmem : item ∈ FORMAT_TO_SIGNING_FUNCTION := List.mem_of_find?_eq_some hfind
        have hself := registry_key_self_matches item hmem
        have hno := List.filter_eq_nil_iff.mp hnil item hmem
        rw [hkey] at hself
        have hmatch : reMatches item.1 format = true := by rw [hkey]; exact hself
        exact hno (by simpa using hmatch)

/-- Witness for C1 at concrete formats: a unique pattern match (`"gpg"`),
two overlapping matches resolved by the exact key
(`"autograph_authenticode_stub"`), two overlapping matches with no exact
key (`"autograph_authenticode_stubble"`), and no match (`"unknown_format"`). -/
theorem C1_format_resolver_precedence_witness :
    _get_signing_function_from_format "gpg" = SigningFunction.sign_gpg ∧
    _get_signing_function_from_format "autograph_authenticode_stub" =
      SigningFunction.sign_authenticode_zip ∧
    _get_signing_function_from_format "autograph_authenticode_stubble" =
      SigningFunction.sign_file ∧
    _get_signing_function_from_format "unknown_format" = SigningFunction.sign_file :=
  ⟨(C1_format_resolver_precedence "gpg").1 "gpg" SigningFunction.sign_gpg (by decide),
   (C1_format_resolver_precedence "autograph_authenticode_stub").2.1 (by decide)
     "autograph_authenticode_stub" SigningFunction.sign_authenticode_zip (by decide),
   (C1_format_resolver_precedence "autograph_authenticode_stubble").2.2
     (Or.inl ⟨by decide, by decide⟩),
   (C1_format_resolver_precedence "unknown_format").2.2 (Or.inr (by decide))⟩

/-- A scope in the comprehension's output is one of the task's scopes and
starts with at least one of the prefixes. -/
theorem mem_filtered_scopes {scopes prefixes : List String} {s : String}
    (h : s ∈ _filtered_scopes scopes prefixes) :
    s ∈ scopes ∧ ∃ pfx ∈ prefixes, pyStartsWith s pfx = true := by
  unfold _filtered_scopes at h
  rw [List.mem_flatMap] at h
  obtain ⟨scope, hscope, hmem⟩ := h
  rw [List.mem_filterMap] at hmem
  obtain ⟨pfx, hpfx, heq⟩ := hmem
  by_cases hsw : pyStartsWith scope pfx = true
  · simp only [hsw, if_true] at heq
    obtain rfl := Option.some.inj heq
    exact ⟨hscope, pfx, hpfx, hsw⟩
  · simp [hsw] at heq

/-- C2 counterexample: with configured prefixes `["proj", "proj:cert:x"]`
the constructed cert prefixes are `proj:cert:` and `proj:cert:x:cert:`, and
the single task scope `proj:cert:x:cert:dep` starts with both.  Exactly one
scope of the task starts with a constructed full prefix, yet
`task_cert_type` raises (the comprehension counts the scope once per
matching prefix), contradicting the claim that it returns that scope. -/
theorem C2_scope_authorizer_counterexample :
    (["proj:cert:x:cert:dep"].filter
        (fun scope =>
          (_get_cert_prefixes ⟨some ⟨["proj:cert:x:cert:dep"]⟩, ["proj", "proj:cert:x"]⟩).any
            (fun pfx => pyStartsWith scope pfx))) = ["proj:cert:x:cert:dep"] ∧
    task_cert_type ⟨some ⟨["proj:cert:x:cert:dep"]⟩, ["proj", "proj:cert:x"]⟩ =
      .error (.taskVerification "More than one scope found") :=
  ⟨by decide, by rfl⟩

/-- C2 (amended): with the filtered scope list counting one occurrence per
(scope, matching-prefix) pair — as the comprehension in
`_extract_scopes_from_unique_prefix` does — `task_cert_type` returns the
single filtered scope when the filtered list is a singleton, and raises
`TaskVerificationError` when the task is missing, its scope list is empty,
or the filtered list does not have exactly one element (which covers zero
matches, several matches, and members not sharing one common prefix). -/
theorem C2_scope_authorizer_amended (context : ScopeContext) :
    (context.task = none → ∃ e, task_cert_type context = .error e) ∧
    (∀ task, context.task = some task → task.scopes = [] →
      ∃ e, task_cert_type context = .error e) ∧
    (∀ task s, context.task = some task →
      _filtered_scopes task.scopes (_get_cert_prefixes context) = [s] →
      task_cert_type context = .ok s) ∧
    (∀ task, context.task = some task →
      (_filtered_scopes task.scopes (_get_cert_prefixes context)).length ≠ 1 →
      ∃ e, task_cert_type context = .error e) := by
  obtain ⟨t, config_prefixes⟩ := context
  refine ⟨?_, ?_, ?_, ?_⟩
  · intro h
    subst h
    exact ⟨.taskVerification "No scopes found", rfl⟩
  · intro task h hscopes
    subst h
    refine ⟨.taskVerification "No scopes found", ?_⟩
    simp only [task_cert_type, hscopes]
    rfl
  · intro task s h hfiltered
    subst h
    have hne : task.scopes ≠ [] := by
      intro hnil
      rw [hnil] at hfiltered
      simp [_filtered_scopes] at hfiltered
    have hs : s ∈ _filtered_scopes task.scopes
        (_get_cert_prefixes ⟨some task, config_prefixes⟩) := by
      rw [hfiltered]; exact List.mem_singleton.mpr rfl
    obtain ⟨-, pfx, hpfx, hsw⟩ := mem_filtered_scopes hs
    simp only [task_cert_type, List.isEmpty_iff, hne, if_neg,
      _extract_scopes_from_unique_prefix,
      _check_scopes_exist_and_all_have_the_same_prefix]
    rw [hfiltered]
    have hany : (_get_cert_prefixes ⟨some task, config_prefixes⟩).any
        (fun pfx => [s].all (fun scope => pyStartsWith scope pfx)) = true := by
      rw [List.any_eq_true]
      exact ⟨pfx, hpfx, by simp [hsw]⟩
    rw [if_pos hany]
    rfl
  · intro task h hlen
    subst h
    by_cases hscopes : task.scopes = []
    · refine ⟨.taskVerification "No scopes found", ?_⟩
      simp only [task_cert_type, hscopes]
      rfl
    · simp only [task_cert_type, List.isEmpty_iff, hscopes, if_neg,
        _extract_scopes_from_unique_prefix,
        _check_scopes_exist_and_all_have_the_same_prefix]
      set filtered := _filtered_scopes task.scopes
        (_get_cert_prefixes ⟨some task, config_prefixes⟩) with hf
      by_cases hany : ((_get_cert_prefixes ⟨some task, config_prefixes⟩).any
          (fun pfx => filtered.all (fun scope => pyStartsWith scope pfx))) = true
      · rw [if_pos hany]
        simp only [get_single_item_from_sequence, List.filter_true]
        match hcase : filtered with
        | [] => exact ⟨_, rfl⟩
        | [x] => simp at hlen
        | x :: y :: tl => exact ⟨_, rfl⟩
      · rw [if_neg hany]
        exact ⟨_, rfl⟩

/-- Witness for C2 (amended) at concrete inputs: a single matching scope is
returned; two matching scopes raise. -/
theorem C2_scope_authorizer_amended_witness :
    task_cert_type ⟨some ⟨["proj:cert:dep-signing"]⟩, ["proj"]⟩ =
      .ok "proj:cert:dep-signing" ∧
    ∃ e, task_cert_type ⟨some ⟨["proj:cert:a", "proj:cert:b"]⟩, ["proj"]⟩ = .error e :=
  ⟨(C2_scope_authorizer_amended ⟨some ⟨["proj:cert:dep-signing"]⟩, ["proj"]⟩).2.2.1
      ⟨["proj:cert:dep-signing"]⟩ "proj:cert:dep-signing" rfl (by decide),
   (C2_scope_authorizer_amended ⟨some ⟨["proj:cert:a", "proj:cert:b"]⟩, ["proj"]⟩).2.2.2
      ⟨["proj:cert:a", "proj:cert:b"]⟩ rfl (by decide)⟩

/-! ### `_sort_formats` lemmas -/

/-- One `remove`/`append` step permutes the list. -/
theorem moveToEnd_perm (xs : List String) (fmt : String) : (moveToEnd xs fmt).Perm xs := by
  unfold moveToEnd
  by_cases h : fmt ∈ xs
  · rw [if_pos h]
    exact (List.perm_append_singleton fmt (xs.erase fmt)).trans (List.perm_cons_erase h).symm
  · rw [if_neg h]

/-- The whole priority fold permutes the list. -/
theorem foldl_moveToEnd_perm (ps : List String) :
    ∀ xs : List String, (List.foldl moveToEnd xs ps).Perm xs := by
  induction ps with
  | nil => intro xs; exact List.Perm.refl xs
  | cons p ps ih =>
    intro xs
    rw [List.foldl_cons]
    exact (ih (moveToEnd xs p)).trans (moveToEnd_perm xs p)

/-- Normal form of the priority fold on duplicate-free lists: the
non-priority formats keep their input order, followed by the present
priority formats in priority order. -/
theorem foldl_moveToEnd_eq (ps : List String) (hps : ps.Nodup) :
    ∀ xs : List String, xs.Nodup →
      List.foldl moveToEnd xs ps =
        xs.filter (fun x => !(decide (x ∈ ps))) ++ ps.filter (fun q => decide (q ∈ xs)) := by
  induction ps with
  | nil =>
    intro xs _
    simp
  | cons p ps ih =>
    intro xs hxs
    have hp_not_mem : p ∉ ps := (List.nodup_cons.mp hps).1
    have hps' : ps.Nodup := (List.nodup_cons.mp hps).2
    rw [List.foldl_cons]
    by_cases hmem : p ∈ xs
    · have hstep : moveToEnd xs p = xs.erase p ++ [p] := by
        unfold moveToEnd; rw [if_pos hmem]
      have hperm : (xs.erase p ++ [p]).Perm xs :=
        (List.perm_append_singleton p (xs.erase p)).trans (List.perm_cons_erase hmem).symm
      have hnodup : (xs.erase p ++ [p]).Nodup := hperm.nodup_iff.mpr hxs
      rw [hstep, ih hps' _ hnodup]
      have e1 : (xs.erase p ++ [p]).filter (fun x => !(decide (x ∈ ps))) =
          xs.filter (fun x => !(decide (x ∈ p :: ps))) ++ [p] := by
        rw [List.filter_append]
        have ep : [p].filter (fun x => !(decide (x ∈ ps))) = [p] := by
          simp [hp_not_mem]
        rw [ep, List.Nodup.erase_eq_filter hxs, List.filter_filter]
        congr 1
        apply List.filter_congr
        intro x _
        by_cases hxp : x = p
        · subst hxp; simp
        · simp [List.mem_cons, hxp]
      have e2 : ps.filter (fun q => decide (q ∈ xs.erase p ++ [p])) =
          ps.filter (fun q => decide (q ∈ xs)) := by
        apply List.filter_congr
        intro q hq
        have hqp : q ≠ p := fun h => hp_not_mem (h ▸ hq)
        simp [List.mem_append, List.mem_erase_of_ne hqp, hqp]
      rw [e1, e2]
      have e3 : (p :: ps).filter (fun q => decide (q ∈ xs)) =
          p :: ps.filter (fun q => decide (q ∈ xs)) := by
        simp [hmem]
      rw [e3]
      simp
    · have hstep : moveToEnd xs p = xs := by
        unfold moveToEnd; rw [if_neg hmem]
      rw [hstep, ih hps' xs hxs]
      have e1 : xs.filter (fun x => !(decide (x ∈ ps))) =
          xs.filter (fun x => !(decide (x ∈ p :: ps))) := by
        apply List.filter_congr
        intro x hx
        have hxp : x ≠ p := fun h => hmem (h ▸ hx)
        simp [List.mem_cons, hxp]
      have e2 : (p :: ps).filter (fun q => decide (q ∈ xs)) =
          ps.filter (fun q => decide (q ∈ xs)) := by
        simp [hmem]
      rw [e1, e2]

/-- `_sort_formats` on a duplicate-free list, in closed form. -/
theorem sort_formats_eq_of_nodup (xs : List String) (hxs : xs.Nodup) :
    _sort_formats xs =
      xs.filter (fun x => !(decide (x ∈ SORT_PRIORITY))) ++
        SORT_PRIORITY.filter (fun q => decide (q ∈ xs)) :=
  foldl_moveToEnd_eq SORT_PRIORITY (by decide) xs hxs

/-- C3 counterexample: on the duplicated request
`["gpg", "widevine", "gpg", "widevine"]` one application of `_sort_formats`
yields `["gpg", "widevine", "widevine", "gpg"]` but a second application
yields `["widevine", "gpg", "widevine", "gpg"]`, so `_sort_formats` is not
idempotent on every format list. -/
theorem C3_sort_formats_idempotent_counterexample :
    _sort_formats ["gpg", "widevine", "gpg", "widevine"] =
      ["gpg", "widevine", "widevine", "gpg"] ∧
    _sort_formats (_sort_formats ["gpg", "widevine", "gpg", "widevine"]) =
      ["widevine", "gpg", "widevine", "gpg"] ∧
    _sort_formats (_sort_formats ["gpg", "widevine", "gpg", "widevine"]) ≠
      _sort_formats ["gpg", "widevine", "gpg", "widevine"] := by
  refine ⟨by decide, by decide, by decide⟩

/-- C3 (amended): `_sort_formats` is idempotent on every duplicate-free
format list, and `["gpg", "widevine", "jar"]` yields
`["jar", "widevine", "gpg"]`. -/
theorem C3_sort_formats_idempotent_amended :
    (∀ xs : List String, xs.Nodup →
      _sort_formats (_sort_formats xs) = _sort_formats xs) ∧
    _sort_formats ["gpg", "widevine", "jar"] = ["jar", "widevine", "gpg"] := by
  constructor
  · intro xs hxs
    have hperm : (_sort_formats xs).Perm xs := foldl_moveToEnd_perm SORT_PRIORITY xs
    have hnodup : (_sort_formats xs).Nodup := hperm.nodup_iff.mpr hxs
    rw [sort_formats_eq_of_nodup _ hnodup, sort_formats_eq_of_nodup xs hxs]
    have e1 : (xs.filter (fun x => !(decide (x ∈ SORT_PRIORITY))) ++
          SORT_PRIORITY.filter (fun q => decide (q ∈ xs))).filter
            (fun x => !(decide (x ∈ SORT_PRIORITY))) =
        xs.filter (fun x => !(decide (x ∈ SORT_PRIORITY))) := by
      rw [List.filter_append]
      have ea : (xs.filter (fun x => !(decide (x ∈ SORT_PRIORITY)))).filter
            (fun x => !(decide (x ∈ SORT_PRIORITY))) =
          xs.filter (fun x => !(decide (x ∈ SORT_PRIORITY))) := by
        rw [List.filter_filter]
        apply List.filter_congr
        intro x _
        cases decide (x ∈ SORT_PRIORITY) <;> rfl
      have eb : (SORT_PRIORITY.filter (fun q => decide (q ∈ xs))).filter
            (fun x => !(decide (x ∈ SORT_PRIORITY))) = [] := by
        rw [List.filter_eq_nil_iff]
        intro a ha
        have : a ∈ SORT_PRIORITY := List.mem_of_mem_filter ha
        simp [this]
      rw [ea, eb, List.append_nil]
    have e2 : SORT_PRIORITY.filter
          (fun q => decide (q ∈ xs.filter (fun x => !(decide (x ∈ SORT_PRIORITY))) ++
            SORT_PRIORITY.filter (fun q => decide (q ∈ xs)))) =
        SORT_PRIORITY.filter (fun q => decide (q ∈ xs)) := by
      apply List.filter_congr
      intro q _
      have hiff := hperm.mem_iff (a := q)
      rw [sort_formats_eq_of_nodup xs hxs] at hiff
      simp only [decide_eq_decide]
      exact hiff
    rw [e1, e2]
  · decide

/-- Witness for C3 (amended) at the duplicate-free list
`["gpg", "widevine", "jar"]`. -/
theorem C3_sort_formats_idempotent_amended_witness :
    _sort_formats (_sort_formats ["gpg", "widevine", "jar"]) =
      _sort_formats ["gpg", "widevine", "jar"] :=
  C3_sort_formats_idempotent_amended.1 ["gpg", "widevine", "jar"] (by decide)

/-- C6 counterexample: `["jar", "focus-jar"]` and `["focus-jar", "jar"]`
contain the same set of formats, yet `_sort_formats` returns them
unchanged in their respective input orders, so the output is not a
function of the requested set alone. -/
theorem C6_sort_formats_set_function_counterexample :
    (["jar", "focus-jar"] : List String).Perm ["focus-jar", "jar"] ∧
    _sort_formats ["jar", "focus-jar"] = ["jar", "focus-jar"] ∧
    _sort_formats ["focus-jar", "jar"] = ["focus-jar", "jar"] ∧
    _sort_formats ["jar", "focus-jar"] ≠ _sort_formats ["focus-jar", "jar"] :=
  ⟨List.Perm.swap "focus-jar" "jar" [], by decide, by decide, by decide⟩

/-- C6 (amended): for duplicate-free format lists containing the same set
of formats, the outputs of `_sort_formats` are permutations of each other
and end in the identical tail of present priority formats in priority
order; only the relative input order of the non-priority prefix is
preserved per input, so it alone can differ. -/
theorem C6_sort_formats_set_function_amended (xs ys : List String)
    (hxs : xs.Nodup) (hperm : xs.Perm ys) :
    (_sort_formats xs).Perm (_sort_formats ys) ∧
    _sort_formats xs =
      xs.filter (fun x => !(decide (x ∈ SORT_PRIORITY))) ++
        SORT_PRIORITY.filter (fun q => decide (q ∈ xs)) ∧
    _sort_formats ys =
      ys.filter (fun x => !(decide (x ∈ SORT_PRIORITY))) ++
        SORT_PRIORITY.filter (fun q => decide (q ∈ xs)) := by
  have hys : ys.Nodup := hperm.nodup_iff.mp hxs
  refine ⟨?_, sort_formats_eq_of_nodup xs hxs, ?_⟩
  · exact ((foldl_moveToEnd_perm SORT_PRIORITY xs).trans hperm).trans
      (foldl_moveToEnd_perm SORT_PRIORITY ys).symm
  · rw [sort_formats_eq_of_nodup ys hys]
    congr 1
    apply List.filter_congr
    intro q _
    simp only [decide_eq_decide]
    exact (hperm.mem_iff (a := q)).symm

/-- Witness for C6 (amended) at `["gpg", "jar"]` and `["jar", "gpg"]`. -/
theorem C6_sort_formats_set_function_amended_witness :
    (_sort_formats ["gpg", "jar"]).Perm (_sort_formats ["jar", "gpg"]) ∧
    _sort_formats ["gpg", "jar"] =
      (["gpg", "jar"].filter (fun x => !(decide (x ∈ SORT_PRIORITY))) ++
        SORT_PRIORITY.filter (fun q => decide (q ∈ ["gpg", "jar"]))) ∧
    _sort_formats ["jar", "gpg"] =
      (["jar", "gpg"].filter (fun x => !(decide (x ∈ SORT_PRIORITY))) ++
        SORT_PRIORITY.filter (fun q => decide (q ∈ ["gpg", "jar"]))) :=
  C6_sort_formats_set_function_amended ["gpg", "jar"] ["jar", "gpg"] (by decide)
    (List.Perm.swap "jar" "gpg" [])

/-- C10: `_sort_formats` returns a permutation of its input — no format is
dropped, duplicated, or invented by the ordering step. -/
theorem C10_sort_formats_permutation (formats : List String) :
    (_sort_formats formats).Perm formats :=
  foldl_moveToEnd_perm SORT_PRIORITY formats

/-! ### `build_filelist_dict` lemmas -/

/-- The inner path loop appends exactly the missing-path messages of the
paths it visits. -/
theorem processPath_foldl_snd (context : FilelistContext) (a : UpstreamArtifact) :
    ∀ (paths : List String) (acc : List (String × FileEntry) × List String),
      (List.foldl (processPath context a) acc paths).2 =
        acc.2 ++ paths.filterMap (fun path =>
          if context.path_exists (cotFullPath context a path) then none
          else some (cotFullPath context a path ++ " doesn\x27t exist!")) := by
  intro paths
  induction paths with
  | nil => intro acc; simp
  | cons q rest ih =>
    intro acc
    rw [List.foldl_cons, ih]
    by_cases h : context.path_exists (cotFullPath context a q)
    · simp [processPath, h, List.filterMap_cons]
    · simp [processPath, h, List.filterMap_cons]

/-- One artifact group appends exactly its own missing-path messages. -/
theorem processArtifact_snd (context : FilelistContext)
    (acc : List (String × FileEntry) × List String) (a : UpstreamArtifact) :
    (processArtifact context acc a).2 = acc.2 ++ artifactMessages context a :=
  processPath_foldl_snd context a a.paths acc

/-- The outer loop accumulates the concatenation of all groups' messages. -/
theorem build_foldl_snd (context : FilelistContext) :
    ∀ (arts : List UpstreamArtifact) (acc : List (String × FileEntry) × List String),
      (List.foldl (processArtifact context) acc arts).2 =
        acc.2 ++ arts.flatMap (artifactMessages context) := by
  intro arts
  induction arts with
  | nil => intro acc; simp
  | cons a rest ih =>
    intro acc
    rw [List.foldl_cons, ih, processArtifact_snd, List.flatMap_cons, List.append_assoc]

/-- Looking up the key just written by a replace-in-place map. -/
theorem dictLookup_map_replace (k : String) (v : FileEntry) :
    ∀ d : List (String × FileEntry), d.any (fun kv => kv.1 = k) = true →
      dictLookup (d.map (fun kv => if kv.1 = k then (k, v) else kv)) k = some v := by
  intro d
  induction d with
  | nil => intro h; simp at h
  | cons kv rest ih =>
    intro h
    rw [List.map_cons]
    by_cases hk : kv.1 = k
    · simp [dictLookup, hk]
    · have hrest : rest.any (fun kv => kv.1 = k) = true := by simpa [hk] using h
      simp [dictLookup, hk, ih hrest]

/-- Looking up the key just appended at the end of a key-free dict. -/
theorem dictLookup_append_self (k : String) (v : FileEntry) :
    ∀ d : List (String × FileEntry), d.any (fun kv => kv.1 = k) = false →
      dictLookup (d ++ [(k, v)]) k = some v := by
  intro d
  induction d with
  | nil => intro _; simp [dictLookup]
  | cons kv rest ih =>
    intro h
    have hk : kv.1 ≠ k := by
      intro hek
      simp [hek] at h
    have hrest : rest.any (fun kv => kv.1 = k) = false := by
      simpa [hk] using h
    simp [dictLookup, hk, ih hrest]

/-- Replace-in-place does not change other keys. -/
theorem dictLookup_map_replace_other (k : String) (v : FileEntry) (k' : String)
    (hne : k' ≠ k) :
    ∀ d : List (String × FileEntry),
      dictLookup (d.map (fun kv => if kv.1 = k then (k, v) else kv)) k' =
        dictLookup d k' := by
  intro d
  induction d with
  | nil => rfl
  | cons kv rest ih =>
    by_cases hk : kv.1 = k
    · rw [List.map_cons, if_pos hk]
      simp only [dictLookup]
      have h1 : ¬((k, v).1 = k') := fun h => hne h.symm
      have h2 : ¬(kv.1 = k') := by rw [hk]; exact fun h => hne h.symm
      rw [if_neg h1, if_neg h2, ih]
    · rw [List.map_cons, if_neg hk]
      simp only [dictLookup]
      by_cases hkv : kv.1 = k'
      · rw [if_pos hkv, if_pos hkv]
      · rw [if_neg hkv, if_neg hkv, ih]

/-- Appending a fresh binding does not change other keys. -/
theorem dictLookup_append_other (k : String) (v : FileEntry) (k' : String)
    (hne : k' ≠ k) :
    ∀ d : List (String × FileEntry),
      dictLookup (d ++ [(k, v)]) k' = dictLookup d k' := by
  intro d
  induction d with
  | nil =>
    show dictLookup [(k, v)] k' = none
    simp only [dictLookup]
    rw [if_neg (show ¬((k, v).1 = k') from fun h => hne h.symm)]
  | cons kv rest ih =>
    show dictLookup (kv :: (rest ++ [(k, v)])) k' = dictLookup (kv :: rest) k'
    simp only [dictLookup]
    by_cases hkv : kv.1 = k'
    · rw [if_pos hkv, if_pos hkv]
    · rw [if_neg hkv, if_neg hkv, ih]

/-- Python dict assignment then read of the same key. -/
theorem dictLookup_insert_self (d : List (String × FileEntry)) (k : String) (v : FileEntry) :
    dictLookup (dictInsert d k v) k = some v := by
  unfold dictInsert
  by_cases h : d.any (fun kv => kv.1 = k) = true
  · rw [if_pos h]
    exact dictLookup_map_replace k v d h
  · rw [if_neg h]
    exact dictLookup_append_self k v d (eq_false_of_ne_true h)

/-- Python dict assignment then read of a different key. -/
theorem dictLookup_insert_other (d : List (String × FileEntry)) (k : String) (v : FileEntry)
    (k' : String) (hne : k' ≠ k) :
    dictLookup (dictInsert d k v) k' = dictLookup d k' := by
  unfold dictInsert
  by_cases h : d.any (fun kv => kv.1 = k) = true
  · rw [if_pos h]
    exact dictLookup_map_replace_other k v k' hne d
  · rw [if_neg h]
    exact dictLookup_append_other k v k' hne d

/-- Effect of the inner path loop on the dictionary: a path visited by the
group maps to that group's entry; everything else is untouched. -/
theorem processPath_foldl_lookup (context : FilelistContext) (a : UpstreamArtifact)
    (p : String) :
    ∀ (paths : List String) (acc : List (String × FileEntry) × List String),
      dictLookup (List.foldl (processPath context a) acc paths).1 p =
        if p ∈ paths then some ⟨cotFullPath context a p, groupSortedFormats a⟩
        else dictLookup acc.1 p := by
  intro paths
  induction paths with
  | nil => intro acc; simp
  | cons q rest ih =>
    intro acc
    rw [List.foldl_cons, ih]
    have hfst : (processPath context a acc q).1 =
        dictInsert acc.1 q ⟨cotFullPath context a q, groupSortedFormats a⟩ := rfl
    by_cases hrest : p ∈ rest
    · rw [if_pos hrest, if_pos (List.mem_cons.mpr (Or.inr hrest))]
    · rw [if_neg hrest]
      by_cases hpq : p = q
      · subst hpq
        rw [if_pos (List.mem_cons.mpr (Or.inl rfl)), hfst]
        exact dictLookup_insert_self acc.1 p ⟨cotFullPath context a p, groupSortedFormats a⟩
      · rw [if_neg (by simp [List.mem_cons, hpq, hrest]), hfst]
        exact dictLookup_insert_other acc.1 q _ p hpq

/-- Folding the last-writer-wins step from an arbitrary seed. -/
theorem lastArtifactFor_foldl_seed (p : String) :
    ∀ (arts : List UpstreamArtifact) (r : Option UpstreamArtifact),
      List.foldl (fun r a => if p ∈ a.paths then some a else r) r arts =
        match List.foldl (fun r a => if p ∈ a.paths then some a else r) none arts with
        | some x => some x
        | none => r := by
  intro arts
  induction arts with
  | nil => intro r; rfl
  | cons a rest ih =>
    intro r
    rw [List.foldl_cons, List.foldl_cons,
      ih (if p ∈ a.paths then some a else r), ih (if p ∈ a.paths then some a else none)]
    cases hM : List.foldl (fun r a => if p ∈ a.paths then some a else r) none rest with
    | some x => rfl
    | none =>
      by_cases hp : p ∈ a.paths
      · simp [hp]
      · simp [hp]

/-- Unfolding the last-writer search on a cons cell. -/
theorem lastArtifactFor_cons (a : UpstreamArtifact) (rest : List UpstreamArtifact)
    (p : String) :
    lastArtifactFor (a :: rest) p =
      match lastArtifactFor rest p with
      | some x => some x
      | none => if p ∈ a.paths then some a else none := by
  unfold lastArtifactFor
  rw [List.foldl_cons]
  exact lastArtifactFor_foldl_seed p rest _

/-- The last writer of a path belongs to the artifact list and declares it. -/
theorem lastArtifactFor_mem (p : String) :
    ∀ (arts : List UpstreamArtifact) (x : UpstreamArtifact),
      lastArtifactFor arts p = some x → x ∈ arts ∧ p ∈ x.paths := by
  intro arts
  induction arts with
  | nil => intro x h; cases h
  | cons a rest ih =>
    intro x h
    rw [lastArtifactFor_cons] at h
    cases hM : lastArtifactFor rest p with
    | some y =>
      rw [hM] at h
      have h' : some y = some x := h
      obtain rfl := Option.some.inj h'
      obtain ⟨hmem, hp⟩ := ih _ hM
      exact ⟨List.mem_cons.mpr (Or.inr hmem), hp⟩
    | none =>
      rw [hM] at h
      replace h : (if p ∈ a.paths then some a else none) = some x := h
      by_cases hp : p ∈ a.paths
      · rw [if_pos hp] at h
        obtain rfl := Option.some.inj h
        exact ⟨List.mem_cons.mpr (Or.inl rfl), hp⟩
      · rw [if_neg hp] at h
        cases h

/-- A declared path always has a last writer. -/
theorem lastArtifactFor_isSome (p : String) :
    ∀ (arts : List UpstreamArtifact) (a : UpstreamArtifact),
      a ∈ arts → p ∈ a.paths → lastArtifactFor arts p ≠ none := by
  intro arts
  induction arts with
  | nil => intro a h; cases h
  | cons b rest ih =>
    intro a hmem hp
    rw [lastArtifactFor_cons]
    cases hM : lastArtifactFor rest p with
    | some y => exact fun hcon => Option.noConfusion hcon
    | none =>
      intro hcon
      replace hcon : (if p ∈ b.paths then some b else none) = none := hcon
      rcases List.mem_cons.mp hmem with rfl | hrest
      · rw [if_pos hp] at hcon
        cases hcon
      · exact absurd hM (ih a hrest hp)

/-- Effect of the outer loop on the dictionary: a path maps to the entry of
the last group declaring it. -/
theorem build_foldl_lookup (context : FilelistContext) (p : String) :
    ∀ (arts : List UpstreamArtifact) (acc : List (String × FileEntry) × List String),
      dictLookup (List.foldl (processArtifact context) acc arts).1 p =
        match lastArtifactFor arts p with
        | some a => some ⟨cotFullPath context a p, groupSortedFormats a⟩
        | none => dictLookup acc.1 p := by
  intro arts
  induction arts with
  | nil => intro acc; rfl
  | cons a rest ih =>
    intro acc
    rw [List.foldl_cons, ih]
    have hstep : dictLookup (processArtifact context acc a).1 p =
        if p ∈ a.paths then some ⟨cotFullPath context a p, groupSortedFormats a⟩
        else dictLookup acc.1 p :=
      processPath_foldl_lookup context a p a.paths acc
    rw [lastArtifactFor_cons]
    cases hM : lastArtifactFor rest p with
    | some x => rfl
    | none =>
      rw [hstep]
      by_cases hp : p ∈ a.paths
      · simp [hp]
      · simp [hp]

/-- C4: `build_filelist_dict` aggregates missing files.  If any computed
`{work_dir}/cot/{taskId}/{path}` location is missing, it raises a single
`TaskVerificationError` whose report contains the message for every missing
path (never only the first); if all exist, it returns a dict mapping each
declared relative path to its absolute location and the group's ordered
formats — the shared in-place-sorted list, i.e. `_sort_formats` compounded
once per path of the (last declaring, per Python dict overwrite) group. -/
theorem C4_build_filelist_dict_aggregates (context : FilelistContext) :
    ((∃ a ∈ context.upstreamArtifacts, ∃ p ∈ a.paths,
        context.path_exists (cotFullPath context a p) = false) →
      build_filelist_dict context = .error (.taskVerificationList (allMessages context)) ∧
      ∀ a ∈ context.upstreamArtifacts, ∀ p ∈ a.paths,
        context.path_exists (cotFullPath context a p) = false →
          (cotFullPath context a p ++ " doesn\x27t exist!") ∈ allMessages context) ∧
    ((∀ a ∈ context.upstreamArtifacts, ∀ p ∈ a.paths,
        context.path_exists (cotFullPath context a p) = true) →
      ∃ d, build_filelist_dict context = .ok d ∧
        ∀ a ∈ context.upstreamArtifacts, ∀ p ∈ a.paths,
          ∃ a' ∈ context.upstreamArtifacts, p ∈ a'.paths ∧
            dictLookup d p = some ⟨cotFullPath context a' p, groupSortedFormats a'⟩) := by
  have hsnd : (List.foldl (processArtifact context) ([], []) context.upstreamArtifacts).2 =
      allMessages context := by
    rw [build_foldl_snd]
    rfl
  constructor
  · intro ⟨a, hmem, p, hp, hmiss⟩
    have hmsg : (cotFullPath context a p ++ " doesn\x27t exist!") ∈ allMessages context := by
      unfold allMessages
      rw [List.mem_flatMap]
      refine ⟨a, hmem, ?_⟩
      unfold artifactMessages
      rw [List.mem_filterMap]
      exact ⟨p, hp, by rw [hmiss]; rfl⟩
    have hne : allMessages context ≠ [] := fun h => by rw [h] at hmsg; cases hmsg
    have hcond : (allMessages context).isEmpty = false := by
      cases hcase : allMessages context with
      | nil => exact absurd hcase hne
      | cons x xs => rfl
    constructor
    · simp [build_filelist_dict, hsnd, hcond]
    · intro a' hmem' p' hp' hmiss'
      unfold allMessages
      rw [List.mem_flatMap]
      refine ⟨a', hmem', ?_⟩
      unfold artifactMessages
      rw [List.mem_filterMap]
      exact ⟨p', hp', by rw [hmiss']; rfl⟩
  · intro hall
    have hempty : allMessages context = [] := by
      unfold allMessages
      rw [List.flatMap_eq_nil_iff]
      intro a hmem
      unfold artifactMessages
      rw [List.filterMap_eq_nil_iff]
      intro p hp
      rw [hall a hmem p hp]
      rfl
    refine ⟨(List.foldl (processArtifact context) ([], []) context.upstreamArtifacts).1, ?_, ?_⟩
    · simp [build_filelist_dict, hsnd, hempty]
    · intro a hmem p hp
      cases hlast : lastArtifactFor context.upstreamArtifacts p with
      | none => exact absurd hlast (lastArtifactFor_isSome p context.upstreamArtifacts a hmem hp)
      | some a' =>
        obtain ⟨hmem', hp'⟩ := lastArtifactFor_mem p context.upstreamArtifacts a' hlast
        refine ⟨a', hmem', hp', ?_⟩
        rw [build_foldl_lookup context p context.upstreamArtifacts ([], []), hlast]

/-- Witness for C4 at two concrete contexts: one with `a` and `c` missing
(both reported), one with everything present. -/
theorem C4_build_filelist_dict_aggregates_witness :
    (build_filelist_dict ⟨"/w", [⟨"T1", ["a", "b", "c"], ["gpg"]⟩],
        fun p => p = "/w/cot/T1/b"⟩ =
      .error (.taskVerificationList
        (allMessages ⟨"/w", [⟨"T1", ["a", "b", "c"], ["gpg"]⟩],
          fun p => p = "/w/cot/T1/b"⟩)) ∧
      ∀ a ∈ (⟨"/w", [⟨"T1", ["a", "b", "c"], ["gpg"]⟩],
          fun p => p = "/w/cot/T1/b"⟩ : FilelistContext).upstreamArtifacts,
        ∀ p ∈ a.paths,
          (⟨"/w", [⟨"T1", ["a", "b", "c"], ["gpg"]⟩],
            fun p => p = "/w/cot/T1/b"⟩ : FilelistContext).path_exists
              (cotFullPath ⟨"/w", [⟨"T1", ["a", "b", "c"], ["gpg"]⟩],
                fun p => p = "/w/cot/T1/b"⟩ a p) = false →
            (cotFullPath ⟨"/w", [⟨"T1", ["a", "b", "c"], ["gpg"]⟩],
                fun p => p = "/w/cot/T1/b"⟩ a p ++ " doesn\x27t exist!") ∈
              allMessages ⟨"/w", [⟨"T1", ["a", "b", "c"], ["gpg"]⟩],
                fun p => p = "/w/cot/T1/b"⟩) ∧
    (∃ d, build_filelist_dict ⟨"/w", [⟨"T1", ["a"], ["gpg", "jar"]⟩], fun _ => true⟩ =
        .ok d ∧
      ∀ a ∈ (⟨"/w", [⟨"T1", ["a"], ["gpg", "jar"]⟩],
          fun _ => true⟩ : FilelistContext).upstreamArtifacts,
        ∀ p ∈ a.paths,
          ∃ a' ∈ (⟨"/w", [⟨"T1", ["a"], ["gpg", "jar"]⟩],
              fun _ => true⟩ : FilelistContext).upstreamArtifacts, p ∈ a'.paths ∧
            dictLookup d p =
              some ⟨cotFullPath ⟨"/w", [⟨"T1", ["a"], ["gpg", "jar"]⟩], fun _ => true⟩ a' p,
                groupSortedFormats a'⟩) :=
  ⟨(C4_build_filelist_dict_aggregates _).1
      ⟨⟨"T1", ["a", "b", "c"], ["gpg"]⟩, by decide, "a", by decide, by decide⟩,
   (C4_build_filelist_dict_aggregates _).2 (fun a hmem p hp => by
      have ha : a = ⟨"T1", ["a"], ["gpg", "jar"]⟩ := by
        rcases List.mem_cons.mp hmem with h | h
        · exact h
        · cases h
      rfl)⟩

/-! ### `sign` lemmas -/

/-- A successful call of `make_archive` implies a supported extension. -/
theorem make_archive_ok_ext (backend : SignBackend) (dirname : String)
    (archive_ext : Option String) (output output' : String)
    (h : make_archive backend dirname archive_ext output = .ok output') :
    archive_ext = some ".zip" ∨ archive_ext = some ".tar.bz2" ∨
      archive_ext = some ".tar.gz" := by
  unfold make_archive at h
  by_cases h1 : archive_ext = some ".zip"
  · exact Or.inl h1
  · rw [if_neg h1] at h
    by_cases h2 : archive_ext = some ".tar.bz2" ∨ archive_ext = some ".tar.gz"
    · exact Or.inr h2
    · rw [if_neg h2] at h
      cases h

/-- Inversion of one loop iteration: a successful step appends no event, an
extraction, or a repack of the current directory into `path` with the
loop's `archive_ext` (and then only when `make_archive` accepted the
extension), and its output is produced by the resolved signing function. -/
theorem signStep_inv (backend : SignBackend) (archive_ext : Option String) (path : String)
    (st : SignState) (fmt : String) (st' : SignState)
    (h : signStep backend archive_ext path st fmt = .ok st') :
    (st'.events = st.events ∨
      (∃ src, st'.events = st.events ++ [ArchiveEvent.extracted src]) ∨
      (∃ dirname,
        st'.events = st.events ++ [ArchiveEvent.repacked dirname archive_ext path false] ∧
        (archive_ext = some ".zip" ∨ archive_ext = some ".tar.bz2" ∨
          archive_ext = some ".tar.gz"))) ∧
    (∃ f o, st'.output = backend.signOp f o fmt) := by
  unfold signStep at h
  split at h
  · exact Except.noConfusion h
  · split at h
    · split at h
      · obtain rfl := Except.ok.inj h
        exact ⟨Or.inr (Or.inl ⟨_, rfl⟩), _, _, rfl⟩
      · obtain rfl := Except.ok.inj h
        exact ⟨Or.inl rfl, _, _, rfl⟩
    · split at h
      · split at h
        next err hmk => exact Except.noConfusion h
        next o2 hmk =>
          obtain rfl := Except.ok.inj h
          exact ⟨Or.inr (Or.inr ⟨_, rfl,
            make_archive_ok_ext backend _ archive_ext path o2 hmk⟩), _, _, rfl⟩
      · obtain rfl := Except.ok.inj h
        exact ⟨Or.inl rfl, _, _, rfl⟩

/-- Inversion of the whole loop: every event of a successful run was
present at entry, or is an extraction, or is an intermediate repack into
`path` with the loop's `archive_ext` (of supported extension). -/
theorem signRun_events_inv (backend : SignBackend) (archive_ext : Option String)
    (path : String) :
    ∀ (formats : List String) (st st' : SignState),
      signRun backend archive_ext path formats st = .ok st' →
      ∀ ev ∈ st'.events, ev ∈ st.events ∨
        (∃ src, ev = ArchiveEvent.extracted src) ∨
        (∃ dirname,
          ev = ArchiveEvent.repacked dirname archive_ext path false ∧
          (archive_ext = some ".zip" ∨ archive_ext = some ".tar.bz2" ∨
            archive_ext = some ".tar.gz")) := by
  intro formats
  induction formats with
  | nil =>
    intro st st' h ev hev
    replace h : Except.ok st = .ok st' := h
    obtain rfl := Except.ok.inj h
    exact Or.inl hev
  | cons fmt rest ih =>
    intro st st' h ev hev
    simp only [signRun] at h
    split at h
    next err hstep => exact Except.noConfusion h
    next st1 hstep =>
      rcases ih st1 st' h ev hev with hin | hex | hrep
      · obtain ⟨hevents, -⟩ := signStep_inv backend archive_ext path st fmt st1 hstep
        rcases hevents with he | ⟨src, he⟩ | ⟨dirname, he, hsup⟩
        · exact Or.inl (he ▸ hin)
        · rw [he] at hin
          rcases List.mem_append.mp hin with h1 | h2
          · exact Or.inl h1
          · exact Or.inr (Or.inl ⟨src, List.mem_singleton.mp h2⟩)
        · rw [he] at hin
          rcases List.mem_append.mp hin with h1 | h2
          · exact Or.inl h1
          · exact Or.inr (Or.inr ⟨dirname, List.mem_singleton.mp h2, hsup⟩)
      · exact Or.inr (Or.inl hex)
      · exact Or.inr (Or.inr hrep)

/-- The loop preserves "every tuple/list output is non-empty" whenever the
signing backend honours the one-or-more-locations contract. -/
theorem signRun_output_nonempty (backend : SignBackend) (archive_ext : Option String)
    (path : String)
    (hcontract : ∀ f o fmt ps, backend.signOp f o fmt = .multiple ps → ps ≠ []) :
    ∀ (formats : List String) (st st' : SignState),
      signRun backend archive_ext path formats st = .ok st' →
      (∀ ps, st.output = .multiple ps → ps ≠ []) →
      ∀ ps, st'.output = .multiple ps → ps ≠ [] := by
  intro formats
  induction formats with
  | nil =>
    intro st st' h hst
    replace h : Except.ok st = .ok st' := h
    obtain rfl := Except.ok.inj h
    exact hst
  | cons fmt rest ih =>
    intro st st' h hst
    simp only [signRun] at h
    split at h
    next err hstep => exact Except.noConfusion h
    next st1 hstep =>
      refine ih st1 st' h ?_
      obtain ⟨-, f, o, hout⟩ := signStep_inv backend archive_ext path st fmt st1 hstep
      intro ps hps
      rw [hout] at hps
      exact hcontract f o fmt ps hps

/-- C5 counterexample: signing `app.zip` with
`["autograph_widevine", "gpg"]` unpacks once and then — because `gpg` is
not archive-aware and the location is a directory — repacks the directory
to `app.zip`, the original input path itself; the intermediate container
path is not distinct from the final destination. -/
theorem C5_intermediate_repack_counterexample :
    sign plainBackend "app.zip" ["autograph_widevine", "gpg"] =
      .ok (["app.zip"],
        [ArchiveEvent.extracted "app.zip",
         ArchiveEvent.repacked "app.zip-unpacked" (some ".zip") "app.zip" false]) ∧
    ¬(∀ d e dest, ArchiveEvent.repacked d e dest false ∈
        [ArchiveEvent.extracted "app.zip",
         ArchiveEvent.repacked "app.zip-unpacked" (some ".zip") "app.zip" false] →
        dest ≠ "app.zip") := by
  refine ⟨by rfl, fun hcl => ?_⟩
  exact hcl "app.zip-unpacked" (some ".zip") "app.zip" (by decide) rfl

/-- C5 (amended): whenever the next format is not archive-aware and the
current location is an unpacked directory, the directory is repacked into a
container using the original extension, and the resulting container path is
the original input path — the very path that is also the final
destination, not a distinct one. -/
theorem C5_intermediate_repack_amended (backend : SignBackend) (path : String) :
    (∀ (st : SignState) (fmt : String) (o : String) (st' : SignState),
      st.output = .single o → fmt ∉ archive_formats → backend.isdir o = true →
      signStep backend (archiveExtOf path) path st fmt = .ok st' →
      st'.events = st.events ++
        [ArchiveEvent.repacked o (archiveExtOf path) path false]) ∧
    (∀ (formats outs : List String) (evs : List ArchiveEvent),
      sign backend path formats = .ok (outs, evs) →
      ∀ d e dest, ArchiveEvent.repacked d e dest false ∈ evs →
        e = archiveExtOf path ∧ dest = path) := by
  constructor
  · intro st fmt o st' hout harch hdir h
    unfold signStep at h
    split at h
    next heq =>
      rw [hout] at heq
      cases heq
    next o2 heq =>
      rw [hout] at heq
      obtain rfl := PyLoc.single.inj heq
      rw [if_neg harch, if_pos hdir] at h
      cases hmk : make_archive backend o (archiveExtOf path) path with
      | error err =>
        rw [hmk] at h
        exact Except.noConfusion h
      | ok o2 =>
        rw [hmk] at h
        obtain rfl := Except.ok.inj h
        rfl
  · intro formats outs evs h d e dest hev
    unfold sign at h
    split at h
    next err hrun => exact Except.noConfusion h
    next st hrun =>
      have hloop := signRun_events_inv backend (archiveExtOf path) path formats
        ⟨.single path, false, []⟩ st hrun
      have hfromLoop : ∀ ev ∈ st.events,
          ∀ d' e' dest', ev = ArchiveEvent.repacked d' e' dest' false →
            e' = archiveExtOf path ∧ dest' = path := by
        intro ev hmem d' e' dest' hshape
        rcases hloop ev hmem with hin | ⟨src, hex⟩ | ⟨dir, hrep, -⟩
        · cases hin
        · rw [hshape] at hex
          cases hex
        · rw [hshape] at hrep
          obtain ⟨-, h2, h3, -⟩ := ArchiveEvent.repacked.inj hrep
          exact ⟨h2, h3⟩
      split at h
      · split at h
        · exact Except.noConfusion h
        next o2 hsto =>
          split at h
          next err hmk => exact Except.noConfusion h
          next o' hmk =>
            obtain ⟨houts, hevs⟩ := Prod.mk.inj (Except.ok.inj h)
            rw [← hevs] at hev
            rcases List.mem_append.mp hev with h1 | h2
            · exact hfromLoop _ h1 d e dest rfl
            · cases List.mem_singleton.mp h2
      · split at h
        next o2 hsto =>
          obtain ⟨houts, hevs⟩ := Prod.mk.inj (Except.ok.inj h)
          rw [← hevs] at hev
          exact hfromLoop _ hev d e dest rfl
        next ps hsto =>
          obtain ⟨houts, hevs⟩ := Prod.mk.inj (Except.ok.inj h)
          rw [← hevs] at hev
          exact hfromLoop _ hev d e dest rfl

/-- Witness for C5 (amended): the concrete `gpg`-after-`widevine` step on
`app.zip` repacks the unpacked directory into `app.zip` itself, and the
whole run's intermediate repack uses the original extension and path. -/
theorem C5_intermediate_repack_amended_witness :
    ([ArchiveEvent.extracted "app.zip",
      ArchiveEvent.repacked "app.zip-unpacked" (some ".zip") "app.zip" false] =
      [ArchiveEvent.extracted "app.zip"] ++
        [ArchiveEvent.repacked "app.zip-unpacked" (archiveExtOf "app.zip") "app.zip" false]) ∧
    (some ".zip" = archiveExtOf "app.zip" ∧ "app.zip" = "app.zip") :=
  ⟨(C5_intermediate_repack_amended plainBackend "app.zip").1
      ⟨.single "app.zip-unpacked", true, [ArchiveEvent.extracted "app.zip"]⟩ "gpg"
      "app.zip-unpacked"
      ⟨.single "app.zip", false,
        [ArchiveEvent.extracted "app.zip",
         ArchiveEvent.repacked "app.zip-unpacked" (some ".zip") "app.zip" false]⟩
      rfl (by decide) rfl (by rfl),
   (C5_intermediate_repack_amended plainBackend "app.zip").2
      ["autograph_widevine", "gpg"] ["app.zip"]
      [ArchiveEvent.extracted "app.zip",
       ArchiveEvent.repacked "app.zip-unpacked" (some ".zip") "app.zip" false]
      (by rfl) "app.zip-unpacked" (some ".zip") "app.zip" (by decide)⟩

/-- C7: every repack performed by `sign` — intermediate or final — uses the
container extension computed from the original input path (one of `.zip`,
`.tar.bz2`, `.tar.gz`, or `make_archive` would have raised), and writes to
the original output path. -/
theorem C7_repack_preserves_container (backend : SignBackend) (path : String)
    (formats outs : List String) (evs : List ArchiveEvent)
    (h : sign backend path formats = .ok (outs, evs)) :
    ∀ d e dest fin, ArchiveEvent.repacked d e dest fin ∈ evs →
      e = archiveExtOf path ∧ dest = path ∧
      (e = some ".zip" ∨ e = some ".tar.bz2" ∨ e = some ".tar.gz") := by
  intro d e dest fin hev
  unfold sign at h
  split at h
  next err hrun => exact Except.noConfusion h
  next st hrun =>
    have hloop := signRun_events_inv backend (archiveExtOf path) path formats
      ⟨.single path, false, []⟩ st hrun
    have hfromLoop : ∀ ev ∈ st.events, ∀ d' e' dest' fin',
        ev = ArchiveEvent.repacked d' e' dest' fin' →
        e' = archiveExtOf path ∧ dest' = path ∧
        (e' = some ".zip" ∨ e' = some ".tar.bz2" ∨ e' = some ".tar.gz") := by
      intro ev hmem d' e' dest' fin' hshape
      rcases hloop ev hmem with hin | ⟨src, hex⟩ | ⟨dir, hrep, hsup⟩
      · cases hin
      · rw [hshape] at hex
        cases hex
      · rw [hshape] at hrep
        obtain ⟨-, h2, h3, -⟩ := ArchiveEvent.repacked.inj hrep
        exact ⟨h2, h3, by rw [h2]; exact hsup⟩
    split at h
    · split at h
      · exact Except.noConfusion h
      next o2 hsto =>
        split at h
        next err hmk => exact Except.noConfusion h
        next o' hmk =>
          obtain ⟨houts, hevs⟩ := Prod.mk.inj (Except.ok.inj h)
          rw [← hevs] at hev
          rcases List.mem_append.mp hev with h1 | h2
          · exact hfromLoop _ h1 d e dest fin rfl
          · obtain ⟨-, he, hdest, -⟩ :=
              ArchiveEvent.repacked.inj (List.mem_singleton.mp h2)
            refine ⟨he, hdest, ?_⟩
            rw [he]
            exact make_archive_ok_ext backend o2 (archiveExtOf path) path o' hmk
    · split at h
      next o2 hsto =>
        obtain ⟨houts, hevs⟩ := Prod.mk.inj (Except.ok.inj h)
        rw [← hevs] at hev
        exact hfromLoop _ hev d e dest fin rfl
      next ps hsto =>
        obtain ⟨houts, hevs⟩ := Prod.mk.inj (Except.ok.inj h)
        rw [← hevs] at hev
        exact hfromLoop _ hev d e dest fin rfl

/-- Witness for C7: the run of `app.tar.gz` through the archive-aware
`autograph_omnija` ends with a final repack, whose recorded extension is
the original `.tar.gz` and whose destination is the original path. -/
theorem C7_repack_preserves_container_witness :
    some ".tar.gz" = archiveExtOf "app.tar.gz" ∧ "app.tar.gz" = "app.tar.gz" ∧
      (some ".tar.gz" = some ".zip" ∨ some ".tar.gz" = some ".tar.bz2" ∨
        some ".tar.gz" = some ".tar.gz") :=
  C7_repack_preserves_container plainBackend "app.tar.gz" ["autograph_omnija"]
    ["app.tar.gz"]
    [ArchiveEvent.extracted "app.tar.gz",
     ArchiveEvent.repacked "app.tar.gz-unpacked" (some ".tar.gz") "app.tar.gz" true]
    (by rfl) "app.tar.gz-unpacked" (some ".tar.gz") "app.tar.gz" true (by decide)

/-- C8: assuming the backend interface contract that a tuple/list result
carries one or more output locations, `sign` always returns a list of one
or more locations (a bare path is wrapped into a singleton list). -/
theorem C8_sign_result_is_list (backend : SignBackend) (path : String)
    (formats : List String)
    (hcontract : ∀ f o fmt ps, backend.signOp f o fmt = .multiple ps → ps ≠ [])
    (outs : List String) (evs : List ArchiveEvent)
    (h : sign backend path formats = .ok (outs, evs)) :
    outs ≠ [] := by
  unfold sign at h
  split at h
  next err hrun => exact Except.noConfusion h
  next st hrun =>
    have hst := signRun_output_nonempty backend (archiveExtOf path) path hcontract
      formats ⟨.single path, false, []⟩ st hrun
      (fun ps hps => PyLoc.noConfusion hps)
    split at h
    · split at h
      · exact Except.noConfusion h
      next o2 hsto =>
        split at h
        next err hmk => exact Except.noConfusion h
        next o' hmk =>
          obtain ⟨houts, hevs⟩ := Prod.mk.inj (Except.ok.inj h)
          rw [← houts]
          exact fun hcon => List.noConfusion hcon
    · split at h
      next o2 hsto =>
        obtain ⟨houts, hevs⟩ := Prod.mk.inj (Except.ok.inj h)
        rw [← houts]
        exact fun hcon => List.noConfusion hcon
      next ps hsto =>
        obtain ⟨houts, hevs⟩ := Prod.mk.inj (Except.ok.inj h)
        rw [← houts]
        exact hst ps hsto

/-- Witness for C8: the identity backend satisfies the contract, and the
`app.zip` run returns the non-empty list `["app.zip"]`. -/
theorem C8_sign_result_is_list_witness : (["app.zip"] : List String) ≠ [] :=
  C8_sign_result_is_list plainBackend "app.zip" ["autograph_widevine", "gpg"]
    (fun _ _ _ _ hps => PyLoc.noConfusion hps)
    ["app.zip"]
    [ArchiveEvent.extracted "app.zip",
     ArchiveEvent.repacked "app.zip-unpacked" (some ".zip") "app.zip" false]
    (by rfl)

/-- C9: `make_archive` raises for every extension outside
`.zip`/`.tar.gz`/`.tar.bz2` (including Python `None`, rendered `"None"` in
the message), and for the three supported extensions it succeeds, writing
the archive at the requested output location. -/
theorem C9_make_archive_extensions (backend : SignBackend) (dirname : String)
    (archive_ext : Option String) (output : String) :
    ((archive_ext = some ".zip" ∨ archive_ext = some ".tar.gz" ∨
        archive_ext = some ".tar.bz2") →
      make_archive backend dirname archive_ext output = .ok output) ∧
    (¬(archive_ext = some ".zip" ∨ archive_ext = some ".tar.gz" ∨
        archive_ext = some ".tar.bz2") →
      make_archive backend dirname archive_ext output =
        .error (.valueError ("Unsupported archive format " ++
          extReprString archive_ext))) := by
  constructor
  · intro hsup
    rcases hsup with rfl | rfl | rfl <;> rfl
  · intro hnotsup
    unfold make_archive
    have h1 : ¬(archive_ext = some ".zip") := fun hc => hnotsup (Or.inl hc)
    have h2 : ¬(archive_ext = some ".tar.bz2" ∨ archive_ext = some ".tar.gz") := by
      intro hc
      rcases hc with hc | hc
      · exact hnotsup (Or.inr (Or.inr hc))
      · exact hnotsup (Or.inr (Or.inl hc))
    rw [if_neg h1, if_neg h2]

/-- Witness for C9: `.zip` is accepted, `.rar` and `None` are rejected. -/
theorem C9_make_archive_extensions_witness :
    make_archive plainBackend "dir" (some ".zip") "out.zip" = .ok "out.zip" ∧
    make_archive plainBackend "dir" (some ".rar") "out.rar" =
      .error (.valueError ("Unsupported archive format " ++ extReprString (some ".rar"))) ∧
    make_archive plainBackend "dir" none "out" =
      .error (.valueError ("Unsupported archive format " ++ extReprString none)) :=
  ⟨(C9_make_archive_extensions plainBackend "dir" (some ".zip") "out.zip").1
      (Or.inl rfl),
   (C9_make_archive_extensions plainBackend "dir" (some ".rar") "out.rar").2
      (by decide),
   (C9_make_archive_extensions plainBackend "dir" none "out").2 (by decide)⟩

end Signingscript
